import Mathlib

/-!
Verification development for the kaariTirri trick-taking card game server.

The game engine (`game.js`, bundled in `src/index.js`), the Redis persistence
adapter (`src/redisClient.js`) and the session server (`src/unnamed/part_000`)
are shallowly embedded below.  JavaScript objects become structures, `Set`
objects become insertion-ordered duplicate-free lists (`JsSet`), JavaScript
association objects (`playerGameStates`, `playerScores`, `socketMap`) become
association lists in key-insertion order, and the two sources of randomness
(the shuffle in `initialGameState` and `Math.random` in the all-passed auction
fallback) become explicit oracle parameters (`shuffled`, `startIdx`, `rnd`).
All numbers involved are non-negative integers in every reachable state, so
they are modelled as `Nat` except where JavaScript can produce a negative
intermediate value (`Math.ceil(playerCount / 2) - 1` and `250 - highestBid`),
which are computed in `Int`.
-/

/-- JavaScript `Set` of strings: insertion-ordered, duplicate-free list.
`add` appends at the end when absent, `delete` removes the element,
spreading (`[...s]`) yields `elems` in insertion order. -/
structure JsSet where
  elems : List String
deriving DecidableEq, Repr

def JsSet.add (s : JsSet) (x : String) : JsSet :=
  if x ∈ s.elems then s else ⟨s.elems ++ [x]⟩

def JsSet.delete (s : JsSet) (x : String) : JsSet :=
  ⟨s.elems.erase x⟩

def JsSet.has (s : JsSet) (x : String) : Bool :=
  s.elems.contains x

def JsSet.empty : JsSet := ⟨[]⟩

/-- `new Set(array)`: deduplicate keeping the first occurrence of each element. -/
def jsDedup (l : List String) : List String :=
  l.foldl (fun acc x => if x ∈ acc then acc else acc ++ [x]) []

def JsSet.fromArray (l : List String) : JsSet := ⟨jsDedup l⟩

/-- `class Card` from game.js: a suit, a rank name (`number`), the numeric
trick power and the point value. -/
structure Card where
  suit : String
  number : String
  power : Nat
  value : Nat
deriving DecidableEq, Repr

def SPADES : String := "Spades"
def HEARTS : String := "Hearts"
def DIAMONDS : String := "Diamonds"
def CLUBS : String := "Clubs"

def SUITS : List String := [SPADES, HEARTS, DIAMONDS, CLUBS]

/-- `powerMap`: numeric power of each rank (game.js). -/
def powerMap (rank : String) : Nat :=
  if rank = "Ace" then 14
  else if rank = "King" then 13
  else if rank = "Queen" then 12
  else if rank = "Jack" then 11
  else if rank = "10" then 10
  else if rank = "9" then 9
  else if rank = "8" then 8
  else if rank = "7" then 7
  else if rank = "6" then 6
  else if rank = "5" then 5
  else if rank = "4" then 4
  else if rank = "3" then 3
  else 2

/-- `computeValue`: point value of a card (game.js). -/
def computeValue (suit rank : String) : Nat :=
  if rank = "Ace" ∨ rank = "King" ∨ rank = "Queen" ∨ rank = "Jack" ∨ rank = "10" then 10
  else if rank = "3" ∧ suit = SPADES then 30
  else if rank = "5" then 5
  else 0

def RANKS : List String :=
  ["Ace", "King", "Queen", "Jack", "10", "9", "8", "7", "6", "5", "4", "3", "2"]

/-- `defaultDeck`: the 52-card deck, suits outer loop, ranks inner loop. -/
def defaultDeck : List Card :=
  SUITS.flatMap (fun suit => RANKS.map (fun rank => ⟨suit, rank, powerMap rank, computeValue suit rank⟩))

def deckSize : Nat := defaultDeck.length

/-- One entry of `pub.round` (the current trick): the player, the card as
played and the trump-adjusted power. -/
structure RoundEntry where
  playerName : String
  card : Card
  power : Nat
deriving DecidableEq, Repr

inductive Stage where
  | auction
  | powerSuitSelection
  | partnerSelection
  | playing
  | gameOver
deriving DecidableEq, Repr

/-- `gameState.public` from game.js. `turnIndex`, `powerSuit`, `roundLeader`,
`highestBidder` and `gameWinners` start as `null` and are modelled as options.
`playerScores` is a JavaScript object, modelled as an association list in key
insertion order. -/
structure PublicState where
  defaultDeck : List Card
  players : List String
  bidders : List String
  playerCount : Nat
  powerSuit : Option String
  partners : List Card
  round : List RoundEntry
  roundScore : Nat
  roundLeader : Option String
  playerScores : List (String × Nat)
  turnIndex : Option Nat
  stage : Stage
  currentBidIndex : Nat
  highestBid : Nat
  highestBidder : Option String
  gameWinners : Option (List String)
deriving DecidableEq, Repr

/-- The full per-room `gameState` from game.js.  `alpha`/`beta` are the team
sets (spec names: `teamA`/`teamB`); `playerGameStates` maps each player name
to their hand (`{hand: [...]}` objects collapse to the hand list). -/
structure GameState where
  pub : PublicState
  alpha : JsSet
  beta : JsSet
  alphaScore : Nat
  betaScore : Nat
  playerGameStates : List (String × List Card)
deriving DecidableEq, Repr

inductive Status where
  | ok
  | error
  | wrongTurn
deriving DecidableEq, Repr

structure ActionResult where
  status : Status
  messages : List String
deriving DecidableEq, Repr

structure BidResult where
  status : Status
  messages : List String
  auctionWon : Bool
deriving DecidableEq, Repr

/-- The deck `defaultDeck.slice(0, deckSize - (deckSize % count))`: trimmed to
the largest length divisible by the player count. -/
def trimmedDeckFor (count : Nat) : List Card :=
  defaultDeck.take (deckSize - deckSize % count)

/-- Push one dealt card onto the hand of `name` inside the association list
(`playerGameStates[player].hand.push(card)`). -/
def pushCard (hands : List (String × List Card)) (name : String) (c : Card) :
    List (String × List Card) :=
  hands.map (fun pc => if pc.1 = name then (pc.1, pc.2 ++ [c]) else pc)

/-- `Object.fromEntries(players.map(p => [p.name, initialPlayerGameState()]))`:
one empty hand per distinct player name, in first-occurrence order. -/
def initHands (names : List String) : List (String × List Card) :=
  (jsDedup names).map (fun p => (p, []))

/-- The round-robin deal `shuffled.forEach((card, i) => ...push...)`: card `i`
goes to the player at index `i % count`. -/
def dealCards (names : List String) (shuffled : List Card) : List (String × List Card) :=
  let count := names.length
  (shuffled.enum.foldl (fun hands ic => pushCard hands (names.getD (ic.1 % count) "") ic.2)
    (initHands names))

/-- `initialGameState(players)` from game.js, with the shuffle outcome
(`shuffled`, a permutation of the trimmed deck) and the random starting bid
index (`Math.floor(Math.random() * players.length)`) passed as oracles.
Players are identified by their names. -/
def initialGameState (names : List String) (shuffled : List Card) (startIdx : Nat) : GameState :=
  let count := names.length
  let deck := defaultDeck.take (deckSize - deckSize % count)
  { pub :=
      { defaultDeck := deck
        players := names
        bidders := names
        playerCount := count
        powerSuit := none
        partners := []
        round := []
        roundScore := 0
        roundLeader := none
        playerScores := (jsDedup names).map (fun p => (p, 0))
        turnIndex := none
        stage := Stage.auction
        currentBidIndex := startIdx
        highestBid := 120
        highestBidder := none
        gameWinners := none }
    alpha := JsSet.empty
    beta := JsSet.empty
    alphaScore := 0
    betaScore := 0
    playerGameStates := dealCards names shuffled }

/-- `handleAuctionWin`: move to `powerSuitSelection`, record the winner and
append the win message.  JavaScript passes the winner name through; the
all-passed fallback can in principle pass `undefined`, hence the option. -/
def handleAuctionWin (gs : GameState) (winner : Option String) (msgs : List String) :
    GameState × BidResult :=
  ({ gs with pub := { gs.pub with stage := Stage.powerSuitSelection, highestBidder := winner } },
   { status := Status.ok
     messages := msgs ++ [winner.getD "undefined" ++ " wins the auction"]
     auctionWon := true })

/-- `placeBid(gameState, playerName, bidAmount)` from game.js.  `rnd` is the
oracle for `Math.floor(Math.random() * players.length)` used only in the
all-passed fallback (the fallback winner is `players[rnd]`). -/
def placeBid (gs : GameState) (playerName : String) (bidAmount : Nat) (rnd : Nat) :
    GameState × BidResult :=
  let pub := gs.pub
  if pub.bidders.length = 0 then
    (gs, { status := Status.error, messages := ["No bidders"], auctionWon := false })
  else
    match pub.bidders.get? pub.currentBidIndex with
    | none =>
      -- `bidders[currentBidIndex]` is `undefined`, which never equals a name
      (gs, { status := Status.wrongTurn
             messages := ["Not your turn. It's undefined's turn to bid"]
             auctionWon := false })
    | some currentBidder =>
      if currentBidder ≠ playerName then
        (gs, { status := Status.wrongTurn
               messages := ["Not your turn. It's " ++ currentBidder ++ "'s turn to bid"]
               auctionWon := false })
      else
        let amount := bidAmount
        let pub := { pub with highestBid := if pub.highestBid = 0 then 120 else pub.highestBid }
        if pub.highestBid < amount then
          -- ---- RAISE ----
          let pub := { pub with highestBid := amount, highestBidder := some playerName }
          let msgs := [playerName ++ " placed a bid of " ++ toString amount]
          if amount = 250 then
            handleAuctionWin { gs with pub := pub } (some playerName) msgs
          else
            let pub := { pub with currentBidIndex := (pub.currentBidIndex + 1) % pub.bidders.length }
            if pub.bidders.length = 1 then
              match pub.highestBidder with
              | some w => handleAuctionWin { gs with pub := pub } (some w) msgs
              | none =>
                ({ gs with pub := pub },
                 { status := Status.ok, messages := msgs, auctionWon := false })
            else
              ({ gs with pub := pub },
               { status := Status.ok, messages := msgs, auctionWon := false })
        else
          -- ---- PASS ----
          let msgs := [playerName ++ " passes"]
          if playerName ∈ pub.bidders then
            let i := pub.bidders.indexOf playerName
            let pub := { pub with bidders := pub.bidders.eraseIdx i }
            let pub :=
              if 0 < pub.bidders.length then
                { pub with currentBidIndex := pub.currentBidIndex % pub.bidders.length }
              else pub
            if pub.bidders.length = 0 then
              let winner := pub.players.get? rnd
              let pub := { pub with highestBid := 125, highestBidder := winner }
              handleAuctionWin { gs with pub := pub } winner
                (msgs ++ ["All players passed, selecting winner at random"])
            else if pub.bidders.length = 1 then
              match pub.highestBidder with
              | some w => handleAuctionWin { gs with pub := pub } (some w) msgs
              | none =>
                ({ gs with pub := pub },
                 { status := Status.ok, messages := msgs, auctionWon := false })
            else
              ({ gs with pub := pub },
               { status := Status.ok, messages := msgs, auctionWon := false })
          else
            (gs, { status := Status.error
                   messages := ["Player not found in bidders"]
                   auctionWon := false })

/-- `selectPowerSuit(gameState, playerName, selectedSuit)` from game.js. -/
def selectPowerSuit (gs : GameState) (playerName : String) (selectedSuit : String) :
    GameState × ActionResult :=
  ({ gs with pub := { gs.pub with powerSuit := some selectedSuit,
                                  stage := Stage.partnerSelection } },
   { status := Status.ok
     messages := [playerName ++ " selected " ++ selectedSuit ++ " as the power suit"] })

/-- `Math.ceil(playerCount / 2) - 1`, computed in `Int` because JavaScript can
produce `-1` here when `playerCount = 0`. -/
def partnerCountOf (playerCount : Nat) : Int :=
  (((playerCount + 1) / 2 : Nat) : Int) - 1

/-- `selectPartners(gameState, playerName, partners)` from game.js.  Note that
`gameState.public.partners` is assigned before the length check, and that for
each partner card every other player is re-added to `beta` before their hand
is scanned. -/
def selectPartners (gs : GameState) (playerName : String) (partners : List Card) :
    GameState × ActionResult :=
  let gs := { gs with pub := { gs.pub with partners := partners } }
  let partnerCount := partnerCountOf gs.pub.playerCount
  if partnerCount < (partners.length : Int) then
    (gs, { status := Status.error, messages := ["too many partners"] })
  else
    let gs := { gs with pub := { gs.pub with stage := Stage.playing } }
    let gs := { gs with alpha := gs.alpha.add playerName }
    let gs := partners.foldl (fun gs card =>
      gs.playerGameStates.foldl (fun gs entry =>
        if entry.1 = playerName then gs
        else
          let gs := { gs with beta := gs.beta.add entry.1 }
          if entry.2.any (fun handCard =>
              handCard.number == card.number && handCard.suit == card.suit) then
            { gs with alpha := gs.alpha.add entry.1, beta := gs.beta.delete entry.1 }
          else gs) gs) gs
    let gs := { gs with pub :=
      { gs.pub with turnIndex := some (gs.pub.players.indexOf playerName) } }
    (gs, { status := Status.ok
           messages := partners.map (fun card =>
             playerName ++ " selected " ++ card.number ++ " of " ++ card.suit ++ " as a partner") })

/-- The hand `gameState.playerGameStates[playerName].hand`. -/
def handOf (gs : GameState) (playerName : String) : List Card :=
  (gs.playerGameStates.lookup playerName).getD []

/-- Modelled from the spec: `helpers.removeCard(hand, card.suit, card.number)`
(helpers.js is not among the repository sources; only this call site and the
spec describe it).  Spec section 4.2: "Remove `card` from the player's hand
(reject with `error "card not found"` if absent)" — remove the first card
matching by suit and rank, reporting failure when no card matches. -/
def removeCard (hand : List Card) (suit number : String) : Option (List Card) :=
  match hand with
  | [] => none
  | c :: rest =>
    if c.suit == suit && c.number == number then some rest
    else (removeCard rest suit number).map (c :: ·)

/-- The trump-adjusted power of a played card:
`(card.suit == pub.powerSuit) ? card.power + 100 : card.power`. -/
def effectivePower (powerSuit : Option String) (card : Card) : Nat :=
  if some card.suit = powerSuit then card.power + 100 else card.power

/-- The reduce `round.reduce((max, c) => (c.power > max.power ? c : max))`:
the first entry of maximal power. -/
def roundLeaderEntry (x : RoundEntry) (xs : List RoundEntry) : RoundEntry :=
  xs.foldl (fun mx c => if mx.power < c.power then c else mx) x

/-- The lazy trick reset at the top of `playCard`: a full trick left over
from the previous play is cleared before the new play is processed. -/
def trickReset (pub : PublicState) : PublicState :=
  if pub.round.length = pub.playerCount then
    { pub with round := [], roundLeader := none, roundScore := 0 }
  else pub

/-- The follow-suit check of `playCard`: the trick is non-empty and not yet
full, the card does not follow the leading suit, and the hand holds at least
one card of the leading suit. -/
def followSuitViolation (pub : PublicState) (hand : List Card) (card : Card) : Bool :=
  match pub.round with
  | [] => false
  | lead :: _ =>
    decide (pub.round.length < pub.playerCount) &&
      !(card.suit == lead.card.suit) &&
      hand.any (fun c => c.suit == lead.card.suit)

/-- The crediting tail of a completed trick in `playCard`: team score, trick
winner leads next, win checks. -/
def creditTrick (gs2 : GameState) (leader : String) (roundScore : Nat) : GameState :=
  let gs2 : GameState :=
    if gs2.alpha.has leader then { gs2 with alphaScore := gs2.alphaScore + roundScore }
    else { gs2 with betaScore := gs2.betaScore + roundScore }
  let gs2 : GameState := { gs2 with pub :=
    { gs2.pub with turnIndex := some (gs2.pub.players.indexOf leader) } }
  let gs2 : GameState :=
    if gs2.pub.highestBid ≤ gs2.alphaScore then
      { gs2 with pub := { gs2.pub with gameWinners := some gs2.alpha.elems,
                                       stage := Stage.gameOver } }
    else gs2
  let gs2 : GameState :=
    if (250 : Int) - (gs2.pub.highestBid : Int) < (gs2.betaScore : Int) then
      { gs2 with pub := { gs2.pub with gameWinners := some gs2.beta.elems,
                                       stage := Stage.gameOver } }
    else gs2
  gs2

/-- `playCard(gameState, playerName, card)` from game.js.  A full trick left
over from the previous play is reset first; the follow-suit check and the
hand removal can each reject the play; a completed trick is scored and the
win conditions are checked. -/
def playCard (gs : GameState) (playerName : String) (card : Card) :
    GameState × ActionResult :=
  match gs.pub.turnIndex with
  | none => (gs, { status := Status.error, messages := ["Not your turn to play"] })
  | some t =>
    if gs.pub.players.get? t ≠ some playerName then
      (gs, { status := Status.error, messages := ["Not your turn to play"] })
    else
      let pub := trickReset gs.pub
      let gs1 : GameState := { gs with pub := pub }
      if followSuitViolation pub (handOf gs1 playerName) card then
        (gs1, { status := Status.error
                messages := [playerName ++ " must follow suit"] })
      else
        match removeCard (handOf gs1 playerName) card.suit card.number with
        | none => (gs1, { status := Status.error, messages := ["Card not found in hand"] })
        | some newHand =>
          let pgs := gs1.playerGameStates.map
            (fun e => if e.1 = playerName then (e.1, newHand) else e)
          let pub := { pub with turnIndex := some ((t + 1) % pub.playerCount) }
          let entry : RoundEntry := ⟨playerName, card, effectivePower pub.powerSuit card⟩
          match pub.round ++ [entry] with
          | [] =>
            -- unreachable: the appended round is never empty
            (gs1, { status := Status.ok, messages := [] })
          | x :: xs =>
            let roundScore := ((x :: xs).map (fun e => e.card.value)).sum
            let leader := (roundLeaderEntry x xs).playerName
            let pub := { pub with round := x :: xs, roundScore := roundScore,
                                  roundLeader := some leader }
            let msgs := [playerName ++ " played " ++ card.number ++ " of " ++ card.suit]
            if (x :: xs).length = pub.playerCount then
              let pub := { pub with
                playerScores := pub.playerScores.map
                  (fun e => if e.1 = leader then (e.1, e.2 + roundScore) else e) }
              let gs2 : GameState := { gs1 with pub := pub, playerGameStates := pgs }
              let msgs := msgs ++ [leader ++ " won " ++ toString roundScore ++ " points"]
              (creditTrick gs2 leader roundScore, { status := Status.ok, messages := msgs })
            else
              ({ gs1 with pub := pub, playerGameStates := pgs },
               { status := Status.ok, messages := msgs })

/-- One entry of `roomData[roomId].gameResults` (pushed by the session server
when a game reaches `gameOver`). -/
structure GameResult where
  highestBid : Nat
  highestBidder : Option String
  gameWinners : Option (List String)
  gameLosers : List String
deriving DecidableEq, Repr

/-- The in-memory room object `roomData[roomId]` that the persistence adapter
serializes: chat logs, past results, the `socketMap` name-to-socket binding
and the optional live game state. -/
structure Room where
  messages : List String
  chat : List String
  gameResults : List GameResult
  socketMap : List (String × String)
  gameState : Option GameState
deriving DecidableEq, Repr

/-- A game state as stored in Redis: identical to `GameState` except that the
team `Set`s `alpha` and `beta` are plain arrays (`[...set]`). -/
structure StoredGameState where
  pub : PublicState
  alpha : List String
  beta : List String
  alphaScore : Nat
  betaScore : Nat
  playerGameStates : List (String × List Card)
deriving DecidableEq, Repr

/-- A room as stored in Redis.  `JSON.stringify`/`JSON.parse` round-trips all
remaining fields (they are plain JSON data), so the JSON text itself is
modelled by this structured value. -/
structure StoredRoom where
  messages : List String
  chat : List String
  gameResults : List GameResult
  socketMap : List (String × String)
  gameState : Option StoredGameState
deriving DecidableEq, Repr

/-- `serialize(roomData)` from redisClient.js: shallow-clone the room and
replace the `alpha`/`beta` `Set`s of the game state (when present) by the
arrays `[...gs.alpha]` and `[...gs.beta]`. -/
def serialize (room : Room) : StoredRoom :=
  { messages := room.messages
    chat := room.chat
    gameResults := room.gameResults
    socketMap := room.socketMap
    gameState := room.gameState.map (fun gs =>
      { pub := gs.pub
        alpha := gs.alpha.elems
        beta := gs.beta.elems
        alphaScore := gs.alphaScore
        betaScore := gs.betaScore
        playerGameStates := gs.playerGameStates }) }

/-- `deserialize(json)` from redisClient.js: parse the stored room and
reconstruct the `alpha`/`beta` `Set`s via `new Set(array)`. -/
def deserialize (sr : StoredRoom) : Room :=
  { messages := sr.messages
    chat := sr.chat
    gameResults := sr.gameResults
    socketMap := sr.socketMap
    gameState := sr.gameState.map (fun gs =>
      { pub := gs.pub
        alpha := JsSet.fromArray gs.alpha
        beta := JsSet.fromArray gs.beta
        alphaScore := gs.alphaScore
        betaScore := gs.betaScore
        playerGameStates := gs.playerGameStates }) }

/-! ### Helper lemmas about `jsDedup` -/

theorem jsDedup_go_eq_append (l acc : List String) (h : ∀ x ∈ l, x ∉ acc) (hn : l.Nodup) :
    l.foldl (fun acc x => if x ∈ acc then acc else acc ++ [x]) acc = acc ++ l := by
  induction l generalizing acc with
  | nil => simp
  | cons a t ih =>
    have ha : a ∉ acc := h a (by simp)
    rw [List.foldl_cons, if_neg ha, ih]
    · simp
    · intro x hx
      simp only [List.mem_append, List.mem_singleton]
      rintro (hxa | rfl)
      · exact h x (by simp [hx]) hxa
      · exact (List.nodup_cons.mp hn).1 hx
    · exact (List.nodup_cons.mp hn).2

/-- On a duplicate-free list, `new Set` is the identity. -/
theorem jsDedup_eq_self (l : List String) (h : l.Nodup) : jsDedup l = l := by
  simpa [jsDedup] using jsDedup_go_eq_append l [] (by simp) h

/-! ### C9: persistence round-trip -/

/-- C9: for every room whose game state carries the teams as `Set`s (hence
duplicate-free element lists) and whose remaining fields are plain data,
`deserialize(serialize(room))` returns the original room: the teams are
serialized as ordered sequences and reconstructed as sets with exactly the
same elements. -/
theorem serialize_deserialize_roundtrip (room : Room)
    (h : ∀ gs, room.gameState = some gs → gs.alpha.elems.Nodup ∧ gs.beta.elems.Nodup) :
    deserialize (serialize room) = room := by
  obtain ⟨m, c, gr, sm, ogs⟩ := room
  cases ogs with
  | none => rfl
  | some gs =>
    obtain ⟨pub, ⟨al⟩, ⟨be⟩, asc, bsc, pgs⟩ := gs
    obtain ⟨h1, h2⟩ := h _ rfl
    simp only [serialize, deserialize, Option.map_some, JsSet.fromArray] at *
    simp [jsDedup_eq_self _ h1, jsDedup_eq_self _ h2]

def rtRoomCard : Card := ⟨"Spades", "3", 3, 30⟩

def rtRoomGs : GameState :=
  { pub := { defaultDeck := [], players := ["A", "B", "C", "D"], bidders := [],
             playerCount := 4, powerSuit := some "Spades", partners := [rtRoomCard],
             round := [], roundScore := 0, roundLeader := some "A",
             playerScores := [("A", 30), ("B", 0), ("C", 0), ("D", 0)],
             turnIndex := some 0, stage := Stage.playing, currentBidIndex := 1,
             highestBid := 130, highestBidder := some "A", gameWinners := none }
    alpha := ⟨["A", "C"]⟩
    beta := ⟨["B", "D"]⟩
    alphaScore := 30
    betaScore := 0
    playerGameStates := [("A", [rtRoomCard]), ("B", []), ("C", []), ("D", [])] }

def rtRoom : Room :=
  { messages := ["Game started by A"], chat := ["hi"], gameResults := []
    socketMap := [("A", "s1"), ("B", "s2"), ("C", "s3"), ("D", "s4")]
    gameState := some rtRoomGs }

/-- Witness for C9 at a concrete mid-game room. -/
theorem serialize_deserialize_roundtrip_witness :
    deserialize (serialize rtRoom) = rtRoom :=
  serialize_deserialize_roundtrip rtRoom (fun gs hg => by
    cases hg
    exact ⟨by decide, by decide⟩)

/-! ### C1: team disjointness -/

def bugPartnerCard1 : Card := ⟨"Hearts", "3", 3, 0⟩
def bugPartnerCard2 : Card := ⟨"Hearts", "4", 4, 0⟩

/-- A six-player game in `partnerSelection` (six players allow two partner
cards): the bid winner P0 is about to name two partner cards; P1 holds the
first of them but not the second, P2 holds the second. -/
def bugGs : GameState :=
  { pub := { defaultDeck := [], players := ["P0", "P1", "P2", "P3", "P4", "P5"], bidders := [],
             playerCount := 6, powerSuit := some "Spades", partners := [], round := [],
             roundScore := 0, roundLeader := none,
             playerScores := [("P0", 0), ("P1", 0), ("P2", 0), ("P3", 0), ("P4", 0), ("P5", 0)],
             turnIndex := none, stage := Stage.partnerSelection, currentBidIndex := 0,
             highestBid := 130, highestBidder := some "P0", gameWinners := none }
    alpha := JsSet.empty
    beta := JsSet.empty
    alphaScore := 0
    betaScore := 0
    playerGameStates := [("P0", []), ("P1", [bugPartnerCard1]), ("P2", [bugPartnerCard2]),
                         ("P3", []), ("P4", []), ("P5", [])] }

/-- C1 fails on the code: when the bid winner names two partner cards and a
player holds the first but not the second, the second pass over the hands
re-adds that already-confirmed teamA member to teamB, so the accepted call
leaves P1 in both teams, violating `teamA ∩ teamB = ∅`. -/
theorem selectPartners_team_overlap_bug :
    (selectPartners bugGs "P0" [bugPartnerCard1, bugPartnerCard2]).2.status = Status.ok ∧
    (selectPartners bugGs "P0" [bugPartnerCard1, bugPartnerCard2]).1.pub.stage = Stage.playing ∧
    "P1" ∈ (selectPartners bugGs "P0" [bugPartnerCard1, bugPartnerCard2]).1.alpha.elems ∧
    "P1" ∈ (selectPartners bugGs "P0" [bugPartnerCard1, bugPartnerCard2]).1.beta.elems := by
  decide

/-! ### C4: oversized partner list is rejected -/

/-- A four-player game in `partnerSelection`: at most one partner card may be
named, and the `partners` field currently holds the empty list. -/
def rejGs : GameState :=
  { pub := { defaultDeck := [], players := ["A", "B", "C", "D"], bidders := [],
             playerCount := 4, powerSuit := some "Spades", partners := [], round := [],
             roundScore := 0, roundLeader := none,
             playerScores := [("A", 0), ("B", 0), ("C", 0), ("D", 0)],
             turnIndex := none, stage := Stage.partnerSelection, currentBidIndex := 0,
             highestBid := 130, highestBidder := some "A", gameWinners := none }
    alpha := JsSet.empty
    beta := JsSet.empty
    alphaScore := 0
    betaScore := 0
    playerGameStates := [("A", []), ("B", [bugPartnerCard1]), ("C", [bugPartnerCard2]), ("D", [])] }

/-- C4 fails on the code as stated: an oversized partner list is rejected with
an error, but `public.partners` is overwritten with the rejected list before
the length check, so the state is not entirely unmutated. -/
theorem selectPartners_reject_mutates_partners_counterexample :
    (selectPartners rejGs "A" [bugPartnerCard1, bugPartnerCard2]).2.status = Status.error ∧
    rejGs.pub.stage = Stage.partnerSelection ∧
    ((2 : Int) > partnerCountOf rejGs.pub.playerCount) ∧
    ¬ (selectPartners rejGs "A" [bugPartnerCard1, bugPartnerCard2]).1.pub.partners
        = rejGs.pub.partners := by
  decide

/-- C4 amended: in `partnerSelection`, a partner list longer than
`ceil(playerCount/2) - 1` makes `selectPartners` return an error and leave
the teams, the stage and the turn index unchanged — but `partnerCards`
(`public.partners`) is overwritten with the rejected list. -/
theorem selectPartners_reject_no_team_mutation (gs : GameState) (p : String) (cards : List Card)
    (_hstage : gs.pub.stage = Stage.partnerSelection)
    (hlen : partnerCountOf gs.pub.playerCount < (cards.length : Int)) :
    (selectPartners gs p cards).2.status = Status.error ∧
    (selectPartners gs p cards).1.alpha = gs.alpha ∧
    (selectPartners gs p cards).1.beta = gs.beta ∧
    (selectPartners gs p cards).1.pub.stage = gs.pub.stage ∧
    (selectPartners gs p cards).1.pub.turnIndex = gs.pub.turnIndex ∧
    (selectPartners gs p cards).1.pub.partners = cards := by
  simp [selectPartners, hlen]

/-- Witness for the amended C4 at the concrete four-player state. -/
theorem selectPartners_reject_no_team_mutation_witness :
    rejGs.pub.stage = Stage.partnerSelection ∧
    partnerCountOf rejGs.pub.playerCount < ((2 : Nat) : Int) ∧
    (selectPartners rejGs "A" [bugPartnerCard1, bugPartnerCard2]).2.status = Status.error ∧
    (selectPartners rejGs "A" [bugPartnerCard1, bugPartnerCard2]).1.alpha = rejGs.alpha := by
  refine ⟨by decide, by decide, ?_, ?_⟩
  · exact (selectPartners_reject_no_team_mutation rejGs "A" [bugPartnerCard1, bugPartnerCard2]
      (by decide) (by decide)).1
  · exact (selectPartners_reject_no_team_mutation rejGs "A" [bugPartnerCard1, bugPartnerCard2]
      (by decide) (by decide)).2.1

theorem creditTrick_alpha (gs : GameState) (l : String) (s : Nat) :
    (creditTrick gs l s).alpha = gs.alpha := by
  simp only [creditTrick]
  repeat' split
  all_goals rfl

theorem creditTrick_beta (gs : GameState) (l : String) (s : Nat) :
    (creditTrick gs l s).beta = gs.beta := by
  simp only [creditTrick]
  repeat' split
  all_goals rfl

/-! ### C10: small partner lists are accepted -/

/-- C10: `selectPartners` errors exactly when the partner list exceeds
`ceil(playerCount/2) - 1`; in particular an empty list is accepted and (from
the initial empty team sets) leaves teamA as the bid winner alone and teamB
empty, and `playCard` never changes team membership afterwards, so every
non-bidder player stays in neither team. -/
theorem selectPartners_error_only_oversized :
    (∀ gs p cards, (selectPartners gs p cards).2.status = Status.error ↔
        partnerCountOf gs.pub.playerCount < (cards.length : Int)) ∧
    (∀ gs p, gs.alpha = JsSet.empty → gs.beta = JsSet.empty → 1 ≤ gs.pub.playerCount →
        (selectPartners gs p []).2.status = Status.ok ∧
        (selectPartners gs p []).1.alpha.elems = [p] ∧
        (selectPartners gs p []).1.beta.elems = [] ∧
        (selectPartners gs p []).1.pub.stage = Stage.playing) ∧
    (∀ gs p card, (playCard gs p card).1.alpha = gs.alpha ∧ (playCard gs p card).1.beta = gs.beta) := by
  refine ⟨?_, ?_, ?_⟩
  · intro gs p cards
    simp only [selectPartners]
    split
    · simp_all
    · simp_all
  · intro gs p ha hb hpc
    have hcond : ¬ partnerCountOf gs.pub.playerCount < (0 : Int) := by
      simp only [not_lt, partnerCountOf]
      have : 1 ≤ (gs.pub.playerCount + 1) / 2 := by omega
      omega
    simp [selectPartners, hcond, ha, hb, JsSet.add, JsSet.empty]
  · intro gs p card
    refine ⟨?_, ?_⟩ <;>
      · simp only [playCard]
        repeat' split
        all_goals simp [creditTrick_alpha, creditTrick_beta]

/-- Witness for C10: the oversized list errors, the empty list is accepted
with teamA = winner only and teamB empty, and a play leaves teams unchanged. -/
theorem selectPartners_error_only_oversized_witness :
    (selectPartners rejGs "A" [bugPartnerCard1, bugPartnerCard2]).2.status = Status.error ∧
    ((selectPartners rejGs "A" []).2.status = Status.ok ∧
     (selectPartners rejGs "A" []).1.alpha.elems = ["A"] ∧
     (selectPartners rejGs "A" []).1.beta.elems = [] ∧
     (selectPartners rejGs "A" []).1.pub.stage = Stage.playing) ∧
    (playCard rejGs "A" bugPartnerCard1).1.alpha = rejGs.alpha := by
  refine ⟨?_, ?_, ?_⟩
  · exact (selectPartners_error_only_oversized.1 rejGs "A" [bugPartnerCard1, bugPartnerCard2]).mpr
      (by decide)
  · exact selectPartners_error_only_oversized.2.1 rejGs "A" (by decide) (by decide) (by decide)
  · exact (selectPartners_error_only_oversized.2.2 rejGs "A" bugPartnerCard1).1

/-! ### C7: follow-suit enforcement -/

theorem trickReset_eq_of_ne (pub : PublicState) (h : pub.round.length ≠ pub.playerCount) :
    trickReset pub = pub := by
  simp [trickReset, h]

/-- C7: in `playing`, when the trick is non-empty and not yet full and the
player still holds a card of the leading suit, a card of another suit is
rejected with an error and the state — in particular the trick — is
untouched. -/
theorem playCard_follow_suit_rejected (gs : GameState) (p : String) (card : Card)
    (e : RoundEntry) (rest : List RoundEntry)
    (_hstage : gs.pub.stage = Stage.playing)
    (hround : gs.pub.round = e :: rest)
    (hlen : gs.pub.round.length < gs.pub.playerCount)
    (hsuit : card.suit ≠ e.card.suit)
    (hhold : (handOf gs p).any (fun c => c.suit == e.card.suit) = true) :
    (playCard gs p card).2.status = Status.error ∧ (playCard gs p card).1 = gs := by
  have hne : gs.pub.round.length ≠ gs.pub.playerCount := Nat.ne_of_lt hlen
  have htr : trickReset gs.pub = gs.pub := trickReset_eq_of_ne _ hne
  have hv : followSuitViolation gs.pub (handOf gs p) card = true := by
    rw [hround] at hlen
    simp only [followSuitViolation, hround]
    simp only [Bool.and_eq_true, decide_eq_true_eq, Bool.not_eq_true', beq_eq_false_iff_ne]
    exact ⟨⟨by simpa using hlen, hsuit⟩, hhold⟩
  rcases hti : gs.pub.turnIndex with _ | t
  · simp [playCard, hti]
  · by_cases hp : gs.pub.players.get? t = some p
    · have hgs1 : ({ gs with pub := trickReset gs.pub } : GameState) = gs := by
        rw [htr]
      simp only [playCard, hti, hp, ne_eq, not_true_eq_false, if_false, hgs1, htr, hv, if_true]
      simp
    · have hp' : ¬ gs.pub.players[t]? = some p := by
        simpa [List.get?_eq_getElem?] using hp
      simp [playCard, hti, hp']

def fsLeadEntry : RoundEntry := ⟨"A", ⟨"Hearts", "Ace", 14, 10⟩, 14⟩

/-- A four-player game mid-trick: A led the Ace of Hearts, it is B's turn and
B still holds a Hearts card besides a Spades card. -/
def fsGs : GameState :=
  { pub := { defaultDeck := [], players := ["A", "B", "C", "D"], bidders := [],
             playerCount := 4, powerSuit := some "Spades", partners := [], round := [fsLeadEntry],
             roundScore := 10, roundLeader := some "A",
             playerScores := [("A", 0), ("B", 0), ("C", 0), ("D", 0)],
             turnIndex := some 1, stage := Stage.playing, currentBidIndex := 0,
             highestBid := 130, highestBidder := some "A", gameWinners := none }
    alpha := ⟨["A"]⟩
    beta := JsSet.empty
    alphaScore := 0
    betaScore := 0
    playerGameStates := [("A", []), ("B", [⟨"Hearts", "King", 13, 10⟩, ⟨"Spades", "2", 2, 0⟩]),
                         ("C", []), ("D", [])] }

/-- Witness for C7: B holds the King of Hearts, so playing the 2 of Spades is
rejected and the state is unchanged. -/
theorem playCard_follow_suit_rejected_witness :
    (playCard fsGs "B" ⟨"Spades", "2", 2, 0⟩).2.status = Status.error ∧
    (playCard fsGs "B" ⟨"Spades", "2", 2, 0⟩).1 = fsGs :=
  playCard_follow_suit_rejected fsGs "B" ⟨"Spades", "2", 2, 0⟩ fsLeadEntry []
    (by decide) (by decide) (by decide) (by decide) (by decide)

/-! ### Helper lemmas for trick resolution -/

theorem roundLeaderEntry_spec (x : RoundEntry) (xs : List RoundEntry) :
    roundLeaderEntry x xs ∈ x :: xs ∧
      ∀ e ∈ x :: xs, e.power ≤ (roundLeaderEntry x xs).power := by
  induction xs generalizing x with
  | nil => simp [roundLeaderEntry]
  | cons y t ih =>
    have hfold : roundLeaderEntry x (y :: t)
        = roundLeaderEntry (if x.power < y.power then y else x) t := rfl
    obtain ⟨hm, hmax⟩ := ih (if x.power < y.power then y else x)
    rw [hfold]
    constructor
    · rcases List.mem_cons.mp hm with h | h
      · rw [h]
        split
        · exact List.mem_cons_of_mem _ (List.mem_cons_self _ _)
        · exact List.mem_cons_self _ _
      · exact List.mem_cons_of_mem _ (List.mem_cons_of_mem _ h)
    · intro e he
      rcases List.mem_cons.mp he with rfl | he
      · refine le_trans ?_ (hmax _ (List.mem_cons_self _ _))
        split <;> omega
      · rcases List.mem_cons.mp he with rfl | he
        · refine le_trans ?_ (hmax _ (List.mem_cons_self _ _))
          split <;> omega
        · exact hmax _ (List.mem_cons_of_mem _ he)

theorem creditTrick_round (gs : GameState) (l : String) (s : Nat) :
    (creditTrick gs l s).pub.round = gs.pub.round := by
  simp only [creditTrick]
  repeat' split
  all_goals rfl

theorem creditTrick_roundScore (gs : GameState) (l : String) (s : Nat) :
    (creditTrick gs l s).pub.roundScore = gs.pub.roundScore := by
  simp only [creditTrick]
  repeat' split
  all_goals rfl

theorem creditTrick_roundLeader (gs : GameState) (l : String) (s : Nat) :
    (creditTrick gs l s).pub.roundLeader = gs.pub.roundLeader := by
  simp only [creditTrick]
  repeat' split
  all_goals rfl

theorem creditTrick_playerScores (gs : GameState) (l : String) (s : Nat) :
    (creditTrick gs l s).pub.playerScores = gs.pub.playerScores := by
  simp only [creditTrick]
  repeat' split
  all_goals rfl

theorem creditTrick_turnIndex (gs : GameState) (l : String) (s : Nat) :
    (creditTrick gs l s).pub.turnIndex = some (gs.pub.players.indexOf l) := by
  simp only [creditTrick]
  repeat' split
  all_goals rfl

theorem creditTrick_scores (gs : GameState) (l : String) (s : Nat) :
    (l ∈ gs.alpha.elems →
      (creditTrick gs l s).alphaScore = gs.alphaScore + s ∧
      (creditTrick gs l s).betaScore = gs.betaScore) ∧
    (l ∉ gs.alpha.elems →
      (creditTrick gs l s).betaScore = gs.betaScore + s ∧
      (creditTrick gs l s).alphaScore = gs.alphaScore) := by
  constructor <;> intro hmem <;>
    · have hh : gs.alpha.has l = decide (l ∈ gs.alpha.elems) := by
        simp [JsSet.has, List.contains_iff_exists_mem_beq]
      simp only [creditTrick, hh, hmem]
      repeat' split
      all_goals simp_all

/-! ### C2: trick resolution and scoring -/

/-- C2: in `playing`, an accepted `playCard` call that completes the trick
appends the card with its trump-adjusted effective power, the winner is an
entry of maximal effective power, the winner's player score and their team's
score are credited with the sum of the played cards' point values, and
`turnIndex` becomes the winner's index in `players` so the winner leads the
next trick. -/
theorem playCard_trick_resolution (gs : GameState) (p : String) (card : Card)
    (_hstage : gs.pub.stage = Stage.playing)
    (hlen : gs.pub.round.length + 1 = gs.pub.playerCount)
    (hok : (playCard gs p card).2.status = Status.ok) :
    (playCard gs p card).1.pub.round
        = gs.pub.round ++ [(⟨p, card, effectivePower gs.pub.powerSuit card⟩ : RoundEntry)] ∧
    ∃ w, (playCard gs p card).1.pub.roundLeader = some w ∧
      (∃ e ∈ gs.pub.round ++ [(⟨p, card, effectivePower gs.pub.powerSuit card⟩ : RoundEntry)],
          e.playerName = w ∧
          ∀ e2 ∈ gs.pub.round ++ [(⟨p, card, effectivePower gs.pub.powerSuit card⟩ : RoundEntry)],
            e2.power ≤ e.power) ∧
      (playCard gs p card).1.pub.playerScores
        = gs.pub.playerScores.map (fun q =>
            if q.1 = w then
              (q.1, q.2 + ((gs.pub.round
                ++ [(⟨p, card, effectivePower gs.pub.powerSuit card⟩ : RoundEntry)]).map
                  (fun e => e.card.value)).sum)
            else q) ∧
      (w ∈ gs.alpha.elems →
        (playCard gs p card).1.alphaScore
            = gs.alphaScore + ((gs.pub.round
                ++ [(⟨p, card, effectivePower gs.pub.powerSuit card⟩ : RoundEntry)]).map
                  (fun e => e.card.value)).sum ∧
        (playCard gs p card).1.betaScore = gs.betaScore) ∧
      (w ∉ gs.alpha.elems →
        (playCard gs p card).1.betaScore
            = gs.betaScore + ((gs.pub.round
                ++ [(⟨p, card, effectivePower gs.pub.powerSuit card⟩ : RoundEntry)]).map
                  (fun e => e.card.value)).sum ∧
        (playCard gs p card).1.alphaScore = gs.alphaScore) ∧
      (playCard gs p card).1.pub.turnIndex = some (gs.pub.players.indexOf w) := by
  have hne : gs.pub.round.length ≠ gs.pub.playerCount := by omega
  have htr : trickReset gs.pub = gs.pub := trickReset_eq_of_ne _ hne
  rcases hti : gs.pub.turnIndex with _ | t
  · simp [playCard, hti] at hok
  · by_cases hp : gs.pub.players.get? t = some p
    · simp only [playCard, hti, hp, ne_eq, not_true_eq_false, if_false, htr] at hok ⊢
      by_cases hfv : followSuitViolation gs.pub (handOf gs p) card = true
      · rw [if_pos hfv] at hok
        simp at hok
      · rw [if_neg hfv] at hok ⊢
        rcases hrc : removeCard (handOf gs p) card.suit card.number with _ | newHand
        · rw [hrc] at hok
          simp at hok
        · rcases hr : gs.pub.round
              ++ [(⟨p, card, effectivePower gs.pub.powerSuit card⟩ : RoundEntry)] with _ | ⟨x, xs⟩
          · simp at hr
          · have hrc2 : removeCard ((gs.playerGameStates.lookup p).getD []) card.suit card.number
                = some newHand := hrc
            have hlen2 : (x :: xs).length = gs.pub.playerCount := by
              rw [← hr]
              simp
              omega
            simp only [handOf, hrc2, hlen2, if_pos]
            refine ⟨?_, (roundLeaderEntry x xs).playerName, ?_, ?_, ?_, ?_, ?_, ?_⟩
            · rw [creditTrick_round]
            · rw [creditTrick_roundLeader]
            · exact ⟨roundLeaderEntry x xs, (roundLeaderEntry_spec x xs).1, rfl,
                (roundLeaderEntry_spec x xs).2⟩
            · rw [creditTrick_playerScores]
            · intro hmem
              exact (creditTrick_scores _ _ _).1 hmem
            · intro hmem
              exact (creditTrick_scores _ _ _).2 hmem
            · rw [creditTrick_turnIndex]
    · have hp' : ¬ gs.pub.players[t]? = some p := by
        simpa [List.get?_eq_getElem?] using hp
      simp [playCard, hti, hp'] at hok

def spadesTwo : Card := ⟨"Spades", "2", 2, 0⟩

/-- A four-player trick about to complete: A led the Ace of Hearts, B and C
followed with the King and Queen, and D — void in Hearts — is about to play
the 2 of Spades (trump). -/
def trickGs : GameState :=
  { pub := { defaultDeck := [], players := ["A", "B", "C", "D"], bidders := [],
             playerCount := 4, powerSuit := some "Spades", partners := [],
             round := [⟨"A", ⟨"Hearts", "Ace", 14, 10⟩, 14⟩,
                       ⟨"B", ⟨"Hearts", "King", 13, 10⟩, 13⟩,
                       ⟨"C", ⟨"Hearts", "Queen", 12, 10⟩, 12⟩],
             roundScore := 30, roundLeader := some "A",
             playerScores := [("A", 0), ("B", 0), ("C", 0), ("D", 0)],
             turnIndex := some 3, stage := Stage.playing, currentBidIndex := 0,
             highestBid := 130, highestBidder := some "A", gameWinners := none }
    alpha := ⟨["A", "D"]⟩
    beta := ⟨["B", "C"]⟩
    alphaScore := 0
    betaScore := 0
    playerGameStates := [("A", []), ("B", []), ("C", []), ("D", [spadesTwo])] }

/-- Witness for C2: D's trump 2 completes the trick, the card is appended with
effective power 102, and the trick winner leads next. -/
theorem playCard_trick_resolution_witness :
    (playCard trickGs "D" spadesTwo).1.pub.round
        = trickGs.pub.round
            ++ [⟨"D", spadesTwo, effectivePower trickGs.pub.powerSuit spadesTwo⟩] ∧
    (playCard trickGs "D" spadesTwo).1.pub.turnIndex
        = some (trickGs.pub.players.indexOf "D") := by
  obtain ⟨h1, w, hw, _hmax, _hps, _hA, _hB, hT⟩ :=
    playCard_trick_resolution trickGs "D" spadesTwo (by decide) (by decide) (by decide)
  refine ⟨h1, ?_⟩
  have hD : (playCard trickGs "D" spadesTwo).1.pub.roundLeader = some "D" := by decide
  rw [hw] at hD
  obtain rfl : w = "D" := by
    injection hD
  exact hT

theorem trickReset_powerSuit (pub : PublicState) :
    (trickReset pub).powerSuit = pub.powerSuit := by
  unfold trickReset
  split <;> rfl

theorem trickReset_playerCount (pub : PublicState) :
    (trickReset pub).playerCount = pub.playerCount := by
  unfold trickReset
  split <;> rfl

/-! ### C5: the trick is cleared lazily, not by the completing call -/

/-- C5 fails on the code as stated: the call that completes the trick leaves
all `playerCount` entries in `currentTrick`; it is not empty afterwards. -/
theorem playCard_trick_not_cleared_counterexample :
    (playCard trickGs "D" spadesTwo).2.status = Status.ok ∧
    trickGs.pub.round.length + 1 = trickGs.pub.playerCount ∧
    (playCard trickGs "D" spadesTwo).1.pub.round.length = trickGs.pub.playerCount ∧
    ¬ (playCard trickGs "D" spadesTwo).1.pub.round = [] := by
  decide

/-- C5 amended: a completing `playCard` leaves the full trick in
`currentTrick` (`playerCount` entries); the trick is cleared at the start of
the next `playCard` call, whose accepted play finds a reset trick and leaves
exactly its own new entry. -/
theorem playCard_lazy_trick_clear :
    (∀ gs p card, gs.pub.stage = Stage.playing →
      gs.pub.round.length + 1 = gs.pub.playerCount →
      (playCard gs p card).2.status = Status.ok →
      (playCard gs p card).1.pub.round.length = gs.pub.playerCount) ∧
    (∀ gs p card t, gs.pub.stage = Stage.playing →
      gs.pub.turnIndex = some t →
      gs.pub.players.get? t = some p →
      gs.pub.round.length = gs.pub.playerCount →
      (playCard gs p card).2.status = Status.ok →
      (playCard gs p card).1.pub.round
          = [⟨p, card, effectivePower gs.pub.powerSuit card⟩]) := by
  constructor
  · intro gs p card _hstage hlen hok
    have hne : gs.pub.round.length ≠ gs.pub.playerCount := by omega
    have htr : trickReset gs.pub = gs.pub := trickReset_eq_of_ne _ hne
    rcases hti : gs.pub.turnIndex with _ | t
    · simp [playCard, hti] at hok
    · by_cases hp : gs.pub.players.get? t = some p
      · simp only [playCard, hti, hp, ne_eq, not_true_eq_false, if_false, htr] at hok ⊢
        by_cases hfv : followSuitViolation gs.pub (handOf gs p) card = true
        · rw [if_pos hfv] at hok
          simp at hok
        · rw [if_neg hfv] at hok ⊢
          rcases hrc : removeCard (handOf gs p) card.suit card.number with _ | newHand
          · rw [hrc] at hok
            simp at hok
          · rcases hr : gs.pub.round
                ++ [(⟨p, card, effectivePower gs.pub.powerSuit card⟩ : RoundEntry)] with _ | ⟨x, xs⟩
            · simp at hr
            · have hrc2 : removeCard ((gs.playerGameStates.lookup p).getD []) card.suit card.number
                  = some newHand := hrc
              have hlen2 : (x :: xs).length = gs.pub.playerCount := by
                rw [← hr]
                simp
                omega
              simp only [handOf, hrc2, hlen2, if_pos, creditTrick_round]
      · have hp' : ¬ gs.pub.players[t]? = some p := by
          simpa [List.get?_eq_getElem?] using hp
        simp [playCard, hti, hp'] at hok
  · intro gs p card t _hstage hti hp hfull hok
    have hround0 : (trickReset gs.pub).round = [] := by
      simp [trickReset, hfull]
    have hfv : ∀ hand, followSuitViolation (trickReset gs.pub) hand card = false := by
      intro hand
      simp [followSuitViolation, hround0]
    simp only [playCard, hti, hp, ne_eq, not_true_eq_false, if_false, hfv,
      Bool.false_eq_true] at hok ⊢
    rcases hrc : removeCard (handOf { gs with pub := trickReset gs.pub } p)
        card.suit card.number with _ | newHand
    · simp only [hrc] at hok
      simp at hok
    · simp only [hrc]
      simp only [hround0, List.nil_append, trickReset_powerSuit]
      by_cases hone : ([(⟨p, card, effectivePower gs.pub.powerSuit card⟩ : RoundEntry)]).length
          = (trickReset gs.pub).playerCount
      · simp only [hone, if_pos, creditTrick_round]
      · simp only [if_neg hone]

def heartsNine : Card := ⟨"Hearts", "9", 9, 0⟩

/-- A four-player game whose previous trick is still sitting full in
`currentTrick`; A won it and leads the next trick. -/
def fullGs : GameState :=
  { pub := { defaultDeck := [], players := ["A", "B", "C", "D"], bidders := [],
             playerCount := 4, powerSuit := some "Spades", partners := [],
             round := [⟨"A", ⟨"Hearts", "Ace", 14, 10⟩, 14⟩,
                       ⟨"B", ⟨"Hearts", "King", 13, 10⟩, 13⟩,
                       ⟨"C", ⟨"Hearts", "Queen", 12, 10⟩, 12⟩,
                       ⟨"D", ⟨"Hearts", "Jack", 11, 10⟩, 11⟩],
             roundScore := 40, roundLeader := some "A",
             playerScores := [("A", 40), ("B", 0), ("C", 0), ("D", 0)],
             turnIndex := some 0, stage := Stage.playing, currentBidIndex := 0,
             highestBid := 130, highestBidder := some "A", gameWinners := none }
    alpha := ⟨["A", "D"]⟩
    beta := ⟨["B", "C"]⟩
    alphaScore := 40
    betaScore := 0
    playerGameStates := [("A", [heartsNine]), ("B", []), ("C", []), ("D", [])] }

/-- Witness for the amended C5: the completing call leaves a full trick, and
the next accepted call starts from a freshly reset trick. -/
theorem playCard_lazy_trick_clear_witness :
    (playCard trickGs "D" spadesTwo).1.pub.round.length = trickGs.pub.playerCount ∧
    (playCard fullGs "A" heartsNine).1.pub.round
        = [⟨"A", heartsNine, effectivePower fullGs.pub.powerSuit heartsNine⟩] := by
  exact ⟨playCard_lazy_trick_clear.1 trickGs "D" spadesTwo (by decide) (by decide) (by decide),
         playCard_lazy_trick_clear.2 fullGs "A" heartsNine 0
           (by decide) (by decide) (by decide) (by decide) (by decide)⟩

/-! ### C6: the deal partitions the trimmed deck -/

theorem mem_jsDedup_go (l : List String) :
    ∀ (acc : List String) (x : String),
      x ∈ l.foldl (fun acc x => if x ∈ acc then acc else acc ++ [x]) acc ↔ x ∈ acc ∨ x ∈ l := by
  induction l with
  | nil => simp
  | cons a t ih =>
    intro acc x
    rw [List.foldl_cons]
    by_cases ha : a ∈ acc
    · rw [if_pos ha, ih]
      constructor
      · rintro (h | h)
        · exact Or.inl h
        · exact Or.inr (by simp [h])
      · rintro (h | h)
        · exact Or.inl h
        · rcases List.mem_cons.mp h with rfl | h
          · exact Or.inl ha
          · exact Or.inr h
    · rw [if_neg ha, ih]
      simp only [List.mem_append, List.mem_singleton, List.mem_cons]
      tauto

theorem mem_jsDedup (l : List String) (x : String) : x ∈ jsDedup l ↔ x ∈ l := by
  rw [jsDedup, mem_jsDedup_go]
  simp

theorem nodup_jsDedup_go (l : List String) :
    ∀ acc : List String, acc.Nodup →
      (l.foldl (fun acc x => if x ∈ acc then acc else acc ++ [x]) acc).Nodup := by
  induction l with
  | nil => simp
  | cons a t ih =>
    intro acc hacc
    rw [List.foldl_cons]
    by_cases ha : a ∈ acc
    · rw [if_pos ha]
      exact ih acc hacc
    · rw [if_neg ha]
      refine ih _ ?_
      simp [List.nodup_append, hacc, ha]

theorem nodup_jsDedup (l : List String) : (jsDedup l).Nodup :=
  nodup_jsDedup_go l [] (by simp)

theorem pushCard_keys (h : List (String × List Card)) (n : String) (c : Card) :
    (pushCard h n c).map Prod.fst = h.map Prod.fst := by
  induction h with
  | nil => rfl
  | cons e t ih =>
    simp only [pushCard, List.map_cons] at ih ⊢
    split <;> simp_all

theorem pushCard_of_not_mem (h : List (String × List Card)) (n : String) (c : Card)
    (hn : n ∉ h.map Prod.fst) : pushCard h n c = h := by
  induction h with
  | nil => rfl
  | cons e t ih =>
    simp only [List.map_cons, List.mem_cons, not_or] at hn
    simp only [pushCard, List.map_cons]
    rw [if_neg (fun he : e.1 = n => hn.1 he.symm)]
    exact congrArg (e :: ·) (ih hn.2)

theorem pushCard_cons (e : String × List Card) (t : List (String × List Card))
    (n : String) (c : Card) :
    pushCard (e :: t) n c = (if e.1 = n then (e.1, e.2 ++ [c]) else e) :: pushCard t n c := rfl

theorem pushCard_join_perm (h : List (String × List Card)) (n : String) (c : Card)
    (hnodup : (h.map Prod.fst).Nodup) (hmem : n ∈ h.map Prod.fst) :
    ((pushCard h n c).map Prod.snd).flatten.Perm ((h.map Prod.snd).flatten ++ [c]) := by
  induction h with
  | nil => simp at hmem
  | cons e t ih =>
    rw [pushCard_cons]
    simp only [List.map_cons, List.nodup_cons] at hnodup
    by_cases he : e.1 = n
    · rw [if_pos he, pushCard_of_not_mem t n c (he ▸ hnodup.1)]
      simp only [List.map_cons, List.flatten_cons]
      rw [List.append_assoc, List.append_assoc]
      exact List.Perm.append_left e.2 List.perm_append_comm
    · rw [if_neg he]
      have hmem' : n ∈ t.map Prod.fst := by
        rw [List.map_cons, List.mem_cons] at hmem
        rcases hmem with h1 | h1
        · exact absurd h1.symm he
        · exact h1
      simp only [List.map_cons, List.flatten_cons]
      rw [List.append_assoc]
      exact List.Perm.append_left e.2 (ih hnodup.2 hmem')

theorem dealGo_join_perm (names : List String) (hpos : 0 < names.length) :
    ∀ (cards : List Card) (n : Nat) (h : List (String × List Card)),
      (h.map Prod.fst).Nodup →
      (∀ x ∈ names, x ∈ h.map Prod.fst) →
      (((List.enumFrom n cards).foldl
          (fun hands ic => pushCard hands (names.getD (ic.1 % names.length) "") ic.2) h).map
        Prod.snd).flatten.Perm ((h.map Prod.snd).flatten ++ cards) := by
  intro cards
  induction cards with
  | nil =>
    intro n h _ _
    simp
  | cons c cs ih =>
    intro n h hnd hsub
    rw [show List.enumFrom n (c :: cs) = (n, c) :: List.enumFrom (n + 1) cs from rfl,
      List.foldl_cons]
    have hlt : n % names.length < names.length := Nat.mod_lt _ hpos
    have hname : names.getD (n % names.length) "" ∈ names := by
      rw [List.getD_eq_getElem names "" hlt]
      exact List.getElem_mem hlt
    have h1 := pushCard_join_perm h (names.getD (n % names.length) "") c hnd (hsub _ hname)
    have h2 := ih (n + 1) (pushCard h (names.getD (n % names.length) "") c)
      (by rw [pushCard_keys]; exact hnd)
      (by intro x hx; rw [pushCard_keys]; exact hsub x hx)
    refine h2.trans ?_
    refine (h1.append_right cs).trans ?_
    rw [List.append_assoc, List.singleton_append]

theorem initialGameState_deal_partition (names : List String) (shuffled : List Card)
    (startIdx : Nat) (h4 : 4 ≤ names.length)
    (hperm : shuffled.Perm (trimmedDeckFor names.length)) :
    ((initialGameState names shuffled startIdx).playerGameStates.map Prod.snd).flatten.Perm
        (trimmedDeckFor names.length) ∧
    (trimmedDeckFor names.length).Nodup := by
  have hpos : 0 < names.length := by omega
  constructor
  · have hkeys : (initHands names).map Prod.fst = jsDedup names := by
      simp only [initHands, List.map_map]
      induction jsDedup names with
      | nil => rfl
      | cons a t ih => simp [ih]
    have hnd : ((initHands names).map Prod.fst).Nodup := by
      rw [hkeys]
      exact nodup_jsDedup names
    have hsub : ∀ x ∈ names, x ∈ (initHands names).map Prod.fst := by
      intro x hx
      rw [hkeys, mem_jsDedup]
      exact hx
    have hmain := dealGo_join_perm names hpos shuffled 0 (initHands names) hnd hsub
    have hinit : ((initHands names).map Prod.snd).flatten = [] := by
      simp [initHands, List.map_map]
    have heq : (initialGameState names shuffled startIdx).playerGameStates
        = (List.enumFrom 0 shuffled).foldl
            (fun hands ic => pushCard hands (names.getD (ic.1 % names.length) "") ic.2)
            (initHands names) := rfl
    rw [heq]
    rw [hinit] at hmain
    simpa using hmain.trans hperm
  · exact (List.take_sublist _ _).nodup (by decide : defaultDeck.Nodup)

/-- C6: for at least four players, dealing the shuffled trimmed deck
round-robin distributes exactly the trimmed deck over the hands: the
concatenation of all hands is a permutation of the trimmed deck, which is
duplicate-free, so no card is duplicated or lost. -/
theorem initialGameState_no_card_lost (names : List String) (shuffled : List Card)
    (startIdx : Nat) (h4 : 4 ≤ names.length)
    (hperm : shuffled.Perm (trimmedDeckFor names.length)) :
    ((initialGameState names shuffled startIdx).playerGameStates.map Prod.snd).flatten.Perm
        (trimmedDeckFor names.length) ∧
    (trimmedDeckFor names.length).Nodup :=
  initialGameState_deal_partition names shuffled startIdx h4 hperm

/-- Witness for C6 at four players with the identity shuffle. -/
theorem initialGameState_no_card_lost_witness :
    ((initialGameState ["A", "B", "C", "D"] (trimmedDeckFor 4) 0).playerGameStates.map
      Prod.snd).flatten.Perm (trimmedDeckFor 4) :=
  (initialGameState_no_card_lost ["A", "B", "C", "D"] (trimmedDeckFor 4) 0
    (by decide) (List.Perm.refl _)).1

/-! ### C3 and C8: auction invariant, sole-bidder auto-win and all-passed fallback -/

theorem get?_decomp {α : Type} :
    ∀ (l : List α) (n : Nat) (a : α), l.get? n = some a →
      ∃ pre post, l = pre ++ a :: post ∧ pre.length = n := by
  intro l
  induction l with
  | nil => intro n a h; simp at h
  | cons b t ih =>
    intro n a h
    cases n with
    | zero =>
      simp at h
      exact ⟨[], t, by simp [h], rfl⟩
    | succ n =>
      simp only [List.get?_cons_succ] at h
      obtain ⟨pre, post, hpt, hlen⟩ := ih n a h
      exact ⟨b :: pre, post, by simp [hpt], by simp [hlen]⟩

theorem nodup_indexOf_eq :
    ∀ (l : List String) (n : Nat) (a : String), l.Nodup → l.get? n = some a →
      l.indexOf a = n := by
  intro l
  induction l with
  | nil => intro n a _ h; simp at h
  | cons b t ih =>
    intro n a hnd h
    cases n with
    | zero =>
      simp at h
      simp [h, List.indexOf_cons_self]
    | succ n =>
      simp only [List.get?_cons_succ] at h
      have hat : a ∈ t := List.get?_mem h
      have hba : b ≠ a := by
        rintro rfl
        exact (List.nodup_cons.mp hnd).1 hat
      rw [List.indexOf_cons_ne _ (by simpa using hba), ih n a (List.nodup_cons.mp hnd).2 h]

theorem eraseIdx_append_cons {α : Type} :
    ∀ (pre : List α) (a : α) (post : List α),
      (pre ++ a :: post).eraseIdx pre.length = pre ++ post := by
  intro pre
  induction pre with
  | nil => intro a post; rfl
  | cons b t ih => intro a post; simp [List.eraseIdx, ih]

/-- The auction-stage invariant maintained by `placeBid`: the bid pointer is in
range, the bidders are distinct, and when someone holds the highest bid they
are still among the bidders, positioned just before the pointer (the pointer
wraps to the front once the raiser is last).  In particular a highest bidder
implies at least two bidders remain. -/
def AuctionInv (pub : PublicState) : Prop :=
  pub.currentBidIndex < pub.bidders.length ∧
  pub.bidders.Nodup ∧
  ∀ q, pub.highestBidder = some q →
    ∃ pre post, pub.bidders = pre ++ q :: post ∧
      ((pub.currentBidIndex = pre.length + 1 ∧ post ≠ []) ∨
       (post = [] ∧ pub.currentBidIndex = 0 ∧ pre ≠ []))

/-- Game states reachable during the auction: a fresh game (distinct player
names, in-range random starting bidder) followed by any sequence of
`placeBid` calls.  The session server dispatches bids only while the stage is
`auction`, and no operation ever returns the stage to `auction`. -/
inductive AuctionReach : GameState → Prop where
  | init (names : List String) (shuffled : List Card) (startIdx : Nat) :
      names.Nodup → startIdx < names.length →
      AuctionReach (initialGameState names shuffled startIdx)
  | step (gs : GameState) (p : String) (amt rnd : Nat) :
      AuctionReach gs → AuctionReach (placeBid gs p amt rnd).1

set_option maxHeartbeats 1600000 in
theorem placeBid_stage_cases (gs : GameState) (p : String) (amt rnd : Nat) :
    (placeBid gs p amt rnd).1.pub.stage = gs.pub.stage ∨
    (placeBid gs p amt rnd).1.pub.stage = Stage.powerSuitSelection := by
  simp only [placeBid, handleAuctionWin]
  repeat' split
  all_goals first
  | exact Or.inl rfl
  | exact Or.inr rfl

set_option maxHeartbeats 1600000 in
theorem placeBid_preserves_inv (gs : GameState) (p : String) (amt rnd : Nat)
    (hinv : AuctionInv gs.pub) :
    (placeBid gs p amt rnd).1.pub.stage = Stage.auction →
      AuctionInv (placeBid gs p amt rnd).1.pub := by
  obtain ⟨hidx, hnd, hhb⟩ := hinv
  by_cases h0 : gs.pub.bidders.length = 0
  · simp only [placeBid, if_pos h0]
    exact fun _ => ⟨hidx, hnd, hhb⟩
  · simp only [placeBid, if_neg h0]
    rcases hget : gs.pub.bidders.get? gs.pub.currentBidIndex with _ | cb
    · exact fun _ => ⟨hidx, hnd, hhb⟩
    · by_cases hcb : cb ≠ p
      · simp only [if_pos hcb]
        exact fun _ => ⟨hidx, hnd, hhb⟩
      · rw [not_not] at hcb
        subst hcb
        simp only [ne_eq, not_true_eq_false, if_false]
        by_cases hraise : (if gs.pub.highestBid = 0 then 120 else gs.pub.highestBid) < amt
        · rw [if_pos hraise]
          by_cases h250 : amt = 250
          · rw [if_pos h250]
            intro hst
            simp [handleAuctionWin] at hst
          · rw [if_neg h250]
            by_cases hlen1 : gs.pub.bidders.length = 1
            · rw [if_pos hlen1]
              intro hst
              simp [handleAuctionWin] at hst
            · rw [if_neg hlen1]
              intro _
              have hlen2 : 2 ≤ gs.pub.bidders.length := by omega
              show (gs.pub.currentBidIndex + 1) % gs.pub.bidders.length < gs.pub.bidders.length ∧
                gs.pub.bidders.Nodup ∧
                ∀ q, some cb = some q → ∃ pre post, gs.pub.bidders = pre ++ q :: post ∧
                  (((gs.pub.currentBidIndex + 1) % gs.pub.bidders.length = pre.length + 1 ∧
                      post ≠ []) ∨
                   (post = [] ∧ (gs.pub.currentBidIndex + 1) % gs.pub.bidders.length = 0 ∧
                      pre ≠ []))
              refine ⟨Nat.mod_lt _ (by omega), hnd, ?_⟩
              intro q hq
              obtain rfl : cb = q := by injection hq
              obtain ⟨pre, post, hdec, hpl⟩ := get?_decomp _ _ _ hget
              have hlen3 := congrArg List.length hdec
              simp only [List.length_append, List.length_cons] at hlen3
              refine ⟨pre, post, hdec, ?_⟩
              by_cases hlast : gs.pub.currentBidIndex + 1 = gs.pub.bidders.length
              · right
                refine ⟨?_, ?_, ?_⟩
                · have hp0 : post.length = 0 := by omega
                  exact List.length_eq_zero.mp hp0
                · rw [hlast, Nat.mod_self]
                · intro hpre
                  rw [hpre] at hpl
                  simp only [List.length_nil] at hpl
                  omega
              · left
                refine ⟨?_, ?_⟩
                · rw [Nat.mod_eq_of_lt (by omega)]
                  omega
                · intro hpost
                  rw [hpost] at hlen3
                  simp only [List.length_nil] at hlen3
                  omega
        · rw [if_neg hraise]
          have hmem : cb ∈ gs.pub.bidders := List.get?_mem hget
          rw [if_pos hmem, nodup_indexOf_eq _ _ _ hnd hget]
          by_cases hpos2 : 0 < (gs.pub.bidders.eraseIdx gs.pub.currentBidIndex).length
          · have hne0 : ¬ (gs.pub.bidders.eraseIdx gs.pub.currentBidIndex).length = 0 := by
              omega
            rw [if_pos hpos2, if_neg hne0]
            by_cases hone : (gs.pub.bidders.eraseIdx gs.pub.currentBidIndex).length = 1
            · rw [if_pos hone]
              rcases hhbv : gs.pub.highestBidder with _ | w
              · intro _
                show gs.pub.currentBidIndex % (gs.pub.bidders.eraseIdx gs.pub.currentBidIndex).length
                      < (gs.pub.bidders.eraseIdx gs.pub.currentBidIndex).length ∧
                  (gs.pub.bidders.eraseIdx gs.pub.currentBidIndex).Nodup ∧
                  ∀ q, (none : Option String) = some q →
                    ∃ pre post, gs.pub.bidders.eraseIdx gs.pub.currentBidIndex = pre ++ q :: post ∧
                      ((gs.pub.currentBidIndex
                            % (gs.pub.bidders.eraseIdx gs.pub.currentBidIndex).length
                          = pre.length + 1 ∧ post ≠ []) ∨
                       (post = [] ∧
                        gs.pub.currentBidIndex
                            % (gs.pub.bidders.eraseIdx gs.pub.currentBidIndex).length = 0 ∧
                        pre ≠ []))
                refine ⟨Nat.mod_lt _ hpos2, (List.eraseIdx_sublist _ _).nodup hnd, ?_⟩
                intro q hq
                cases hq
              · intro hst
                simp [handleAuctionWin] at hst
            · rw [if_neg hone]
              intro _
              show gs.pub.currentBidIndex % (gs.pub.bidders.eraseIdx gs.pub.currentBidIndex).length
                    < (gs.pub.bidders.eraseIdx gs.pub.currentBidIndex).length ∧
                (gs.pub.bidders.eraseIdx gs.pub.currentBidIndex).Nodup ∧
                ∀ q, gs.pub.highestBidder = some q →
                  ∃ pre post, gs.pub.bidders.eraseIdx gs.pub.currentBidIndex = pre ++ q :: post ∧
                    ((gs.pub.currentBidIndex
                          % (gs.pub.bidders.eraseIdx gs.pub.currentBidIndex).length
                        = pre.length + 1 ∧ post ≠ []) ∨
                     (post = [] ∧
                      gs.pub.currentBidIndex
                          % (gs.pub.bidders.eraseIdx gs.pub.currentBidIndex).length = 0 ∧
                      pre ≠ []))
              refine ⟨Nat.mod_lt _ hpos2, (List.eraseIdx_sublist _ _).nodup hnd, ?_⟩
              intro q hq
              obtain ⟨pre, post, hdec, hph⟩ := hhb q hq
              rcases hph with ⟨hidx1, hpost⟩ | ⟨hpost0, hidx0, hpre⟩
              · rcases post with _ | ⟨y, post2⟩
                · exact absurd rfl hpost
                · have herase : gs.pub.bidders.eraseIdx gs.pub.currentBidIndex
                      = pre ++ q :: post2 := by
                    rw [hdec, hidx1]
                    rw [show pre ++ q :: y :: post2 = (pre ++ [q]) ++ y :: post2 by simp,
                        show pre.length + 1 = (pre ++ [q]).length by simp,
                        eraseIdx_append_cons]
                    simp
                  have hlenE := congrArg List.length herase
                  simp only [List.length_append, List.length_cons] at hlenE
                  refine ⟨pre, post2, herase, ?_⟩
                  by_cases hpe : post2 = []
                  · right
                    refine ⟨hpe, ?_, ?_⟩
                    · rw [herase, hpe] at hone hpos2 ⊢
                      rw [hidx1]
                      have : (pre ++ q :: ([] : List String)).length = pre.length + 1 := by simp
                      rw [this, Nat.mod_self]
                    · intro hpree
                      rw [hpe] at hlenE
                      rw [hpree] at hlenE hidx1
                      simp only [List.length_nil] at hlenE hidx1
                      omega
                  · left
                    have hpl2 : 0 < post2.length := by
                      rcases post2 with _ | _
                      · exact absurd rfl hpe
                      · simp
                    refine ⟨?_, hpe⟩
                    rw [hlenE, hidx1, Nat.mod_eq_of_lt (by omega)]
              · rcases pre with _ | ⟨x, pre2⟩
                · exact absurd rfl hpre
                · have herase : gs.pub.bidders.eraseIdx gs.pub.currentBidIndex
                      = pre2 ++ q :: post := by
                    rw [hdec, hidx0]
                    simp [List.eraseIdx]
                  have hlenE := congrArg List.length herase
                  simp only [List.length_append, List.length_cons] at hlenE
                  refine ⟨pre2, post, herase, Or.inr ⟨hpost0, ?_, ?_⟩⟩
                  · rw [hidx0, Nat.zero_mod]
                  · intro hpree
                    rw [hpost0] at hlenE
                    rw [hpree] at hlenE
                    simp only [List.length_nil] at hlenE
                    omega
          · have hz : (gs.pub.bidders.eraseIdx gs.pub.currentBidIndex).length = 0 := by
              omega
            rw [if_neg hpos2, if_pos hz]
            intro hst
            simp [handleAuctionWin] at hst

theorem auctionReach_safe (gs : GameState) (h : AuctionReach gs) :
    gs.pub.stage = Stage.auction → AuctionInv gs.pub := by
  induction h with
  | init names shuffled startIdx hnd hlt =>
    intro _
    exact ⟨hlt, hnd, fun q hq => by cases hq⟩
  | step gs p amt rnd _ ih =>
    intro hst
    by_cases hprev : gs.pub.stage = Stage.auction
    · exact placeBid_preserves_inv gs p amt rnd (ih hprev) hst
    · rcases placeBid_stage_cases gs p amt rnd with h | h
      · rw [h] at hst
        exact absurd hst hprev
      · rw [h] at hst
        exact absurd hst (by decide)

set_option maxHeartbeats 1600000 in
/-- C8: in the auction, when a pass empties the bidders list the code picks
the random-oracle player `players[rnd]` as fallback winner with
`highestBid = 125` and moves to `powerSuitSelection`; and in every reachable
auction state this can only happen when no highest bidder was ever set
(`highestBidder` is still null). -/
theorem placeBid_all_pass_fallback (gs : GameState) (p : String) (amt rnd : Nat)
    (hreach : AuctionReach gs) (hstage : gs.pub.stage = Stage.auction)
    (hempty : (placeBid gs p amt rnd).1.pub.bidders = []) :
    gs.pub.highestBidder = none ∧
    (placeBid gs p amt rnd).1.pub.highestBid = 125 ∧
    (placeBid gs p amt rnd).1.pub.highestBidder = gs.pub.players.get? rnd ∧
    (placeBid gs p amt rnd).1.pub.stage = Stage.powerSuitSelection ∧
    (placeBid gs p amt rnd).2.auctionWon = true := by
  obtain ⟨hidx, hnd, hhb⟩ := auctionReach_safe gs hreach hstage
  have h0 : ¬ (gs.pub.bidders.length = 0) := by omega
  simp only [placeBid, if_neg h0] at hempty ⊢
  rcases hget : gs.pub.bidders.get? gs.pub.currentBidIndex with _ | cb
  · rw [List.get?_eq_none] at hget
    omega
  · rw [hget] at hempty
    by_cases hcb : cb ≠ p
    · simp only [if_pos hcb] at hempty
      rw [hempty] at hidx
      simp at hidx
    · rw [not_not] at hcb
      subst hcb
      simp only [ne_eq, not_true_eq_false, if_false] at hempty ⊢
      by_cases hraise : (if gs.pub.highestBid = 0 then 120 else gs.pub.highestBid) < amt
      · simp only [if_pos hraise] at hempty ⊢
        exfalso
        by_cases h250 : amt = 250
        · simp only [if_pos h250, handleAuctionWin] at hempty
          rw [hempty] at hidx
          simp at hidx
        · simp only [if_neg h250] at hempty
          by_cases hlen1 : gs.pub.bidders.length = 1
          · simp only [if_pos hlen1, handleAuctionWin] at hempty
            rw [hempty] at hidx
            simp at hidx
          · simp only [if_neg hlen1] at hempty
            rw [hempty] at hidx
            simp at hidx
      · simp only [if_neg hraise] at hempty ⊢
        have hmem : cb ∈ gs.pub.bidders := List.get?_mem hget
        simp only [if_pos hmem, nodup_indexOf_eq _ _ _ hnd hget] at hempty ⊢
        by_cases hpos2 : 0 < (gs.pub.bidders.eraseIdx gs.pub.currentBidIndex).length
        · exfalso
          have hne0 : ¬ (gs.pub.bidders.eraseIdx gs.pub.currentBidIndex).length = 0 := by
            omega
          simp only [if_pos hpos2, if_neg hne0] at hempty
          by_cases hone : (gs.pub.bidders.eraseIdx gs.pub.currentBidIndex).length = 1
          · simp only [if_pos hone] at hempty
            rcases hhbv : gs.pub.highestBidder with _ | w
            · rw [hhbv] at hempty
              simp only [handleAuctionWin] at hempty
              rw [hempty] at hpos2
              simp at hpos2
            · rw [hhbv] at hempty
              simp only [handleAuctionWin] at hempty
              rw [hempty] at hpos2
              simp at hpos2
          · simp only [if_neg hone] at hempty
            rw [hempty] at hpos2
            simp at hpos2
        · have hz : (gs.pub.bidders.eraseIdx gs.pub.currentBidIndex).length = 0 := by
            omega
          simp only [if_neg hpos2, if_pos hz, handleAuctionWin] at hempty ⊢
          have hhbn : gs.pub.highestBidder = none := by
            rcases hhbv : gs.pub.highestBidder with _ | q
            · rfl
            · exfalso
              have hlone : gs.pub.bidders.length = 1 := by
                have := List.length_eraseIdx_of_lt hidx
                omega
              obtain ⟨pre, post, hdec, hph⟩ := hhb q hhbv
              have hlen3 := congrArg List.length hdec
              simp only [List.length_append, List.length_cons] at hlen3
              rcases hph with ⟨hidx1, hpost⟩ | ⟨hpost0, hidx0, hpre⟩
              · rcases post with _ | ⟨y, post2⟩
                · exact absurd rfl hpost
                · simp only [List.length_cons] at hlen3
                  omega
              · rcases pre with _ | ⟨x, pre2⟩
                · exact absurd rfl hpre
                · simp only [List.length_cons] at hlen3
                  omega
          exact ⟨hhbn, trivial, trivial, trivial, trivial⟩

theorem inv_one_bidder_no_highest (pub : PublicState) (hinv : AuctionInv pub)
    (hone : pub.bidders.length = 1) : pub.highestBidder = none := by
  obtain ⟨_, _, hhb⟩ := hinv
  rcases hhbv : pub.highestBidder with _ | q
  · rfl
  · exfalso
    obtain ⟨pre, post, hdec, hph⟩ := hhb q hhbv
    have hlen3 := congrArg List.length hdec
    simp only [List.length_append, List.length_cons] at hlen3
    rcases hph with ⟨hidx1, hpost⟩ | ⟨hpost0, hidx0, hpre⟩
    · rcases post with _ | ⟨y, post2⟩
      · exact absurd rfl hpost
      · simp only [List.length_cons] at hlen3
        omega
    · rcases pre with _ | ⟨x, pre2⟩
      · exact absurd rfl hpre
      · simp only [List.length_cons] at hlen3
        omega

set_option maxHeartbeats 1600000 in
/-- C3 amended: whenever a `placeBid` call leaves exactly one bidder and a
highest bidder exists after the call, the auction is won: the stage moves to
`powerSuitSelection` and the winner - the highest bidder - is the sole
remaining bidder.  (Without a highest bid on record, a pass down to one
bidder leaves the auction running; see the counterexample.) -/
theorem placeBid_sole_bidder_auto_win (gs : GameState) (p : String) (amt rnd : Nat)
    (hreach : AuctionReach gs) (hstage : gs.pub.stage = Stage.auction)
    (hone : (placeBid gs p amt rnd).1.pub.bidders.length = 1)
    (hhbset : (placeBid gs p amt rnd).1.pub.highestBidder ≠ none) :
    (placeBid gs p amt rnd).2.auctionWon = true ∧
    (placeBid gs p amt rnd).1.pub.stage = Stage.powerSuitSelection ∧
    ∃ w, (placeBid gs p amt rnd).1.pub.highestBidder = some w ∧
         (placeBid gs p amt rnd).1.pub.bidders = [w] := by
  have hinv := auctionReach_safe gs hreach hstage
  obtain ⟨hidx, hnd, hhb⟩ := hinv
  have h0 : ¬ (gs.pub.bidders.length = 0) := by omega
  simp only [placeBid, if_neg h0] at hone hhbset ⊢
  rcases hget : gs.pub.bidders.get? gs.pub.currentBidIndex with _ | cb
  · rw [hget] at hone hhbset
    exact absurd (inv_one_bidder_no_highest gs.pub ⟨hidx, hnd, hhb⟩ hone) hhbset
  · rw [hget] at hone hhbset
    have hlist_of_one : gs.pub.bidders.length = 1 → gs.pub.bidders = [cb] := by
      intro h1
      have hidx0 : gs.pub.currentBidIndex = 0 := by omega
      rw [hidx0] at hget
      rcases hb : gs.pub.bidders with _ | ⟨b, t⟩
      · rw [hb] at h1
        simp at h1
      · rw [hb] at hget h1
        simp only [List.get?_cons_zero, Option.some.injEq] at hget
        simp only [List.length_cons] at h1
        have : t = [] := List.length_eq_zero.mp (by omega)
        rw [hget, this]
    by_cases hcb : cb ≠ p
    · simp only [if_pos hcb] at hone hhbset
      exact absurd (inv_one_bidder_no_highest gs.pub ⟨hidx, hnd, hhb⟩ hone) hhbset
    · rw [not_not] at hcb
      subst hcb
      simp only [ne_eq, not_true_eq_false, if_false] at hone hhbset ⊢
      by_cases hraise : (if gs.pub.highestBid = 0 then 120 else gs.pub.highestBid) < amt
      · simp only [if_pos hraise] at hone hhbset ⊢
        by_cases h250 : amt = 250
        · simp only [if_pos h250, handleAuctionWin] at hone ⊢
          exact ⟨trivial, trivial, cb, by simp, hlist_of_one hone⟩
        · simp only [if_neg h250] at hone hhbset ⊢
          by_cases hlen1 : gs.pub.bidders.length = 1
          · simp only [if_pos hlen1, handleAuctionWin] at hone ⊢
            exact ⟨trivial, trivial, cb, by simp, hlist_of_one hone⟩
          · simp only [if_neg hlen1] at hone
            exact absurd hone hlen1
      · simp only [if_neg hraise] at hone hhbset ⊢
        have hmem : cb ∈ gs.pub.bidders := List.get?_mem hget
        simp only [if_pos hmem, nodup_indexOf_eq _ _ _ hnd hget] at hone hhbset ⊢
        by_cases hpos2 : 0 < (gs.pub.bidders.eraseIdx gs.pub.currentBidIndex).length
        · have hne0 : ¬ (gs.pub.bidders.eraseIdx gs.pub.currentBidIndex).length = 0 := by
            omega
          simp only [if_pos hpos2, if_neg hne0] at hone hhbset ⊢
          by_cases honeE : (gs.pub.bidders.eraseIdx gs.pub.currentBidIndex).length = 1
          · simp only [if_pos honeE] at hone hhbset ⊢
            rcases hhbv : gs.pub.highestBidder with _ | w
            · rw [hhbv] at hhbset
              simp at hhbset
            · rw [hhbv] at hone hhbset
              simp only [handleAuctionWin] at hone hhbset ⊢
              refine ⟨trivial, trivial, w, by simp, ?_⟩
              have hlenE := List.length_eraseIdx_of_lt hidx
              obtain ⟨pre, post, hdec, hph⟩ := hhb w hhbv
              have hlen3 := congrArg List.length hdec
              simp only [List.length_append, List.length_cons] at hlen3
              rcases hph with ⟨hidx1, hpost⟩ | ⟨hpost0, hidx0, hpre⟩
              · rcases post with _ | ⟨y, post2⟩
                · exact absurd rfl hpost
                · simp only [List.length_cons] at hlen3
                  have hpre0 : pre = [] := by
                    refine List.length_eq_zero.mp ?_
                    omega
                  have hpost20 : post2 = [] := by
                    refine List.length_eq_zero.mp ?_
                    omega
                  rw [hpre0] at hdec hidx1
                  rw [hpost20] at hdec
                  simp only [List.nil_append, List.length_nil, Nat.zero_add] at hdec hidx1
                  rw [hdec, hidx1]
                  rfl
              · rcases pre with _ | ⟨x, pre2⟩
                · exact absurd rfl hpre
                · simp only [List.length_cons] at hlen3
                  have hpre20 : pre2 = [] := by
                    refine List.length_eq_zero.mp ?_
                    omega
                  rw [hpre20, hpost0] at hdec
                  simp only [List.cons_append, List.nil_append] at hdec
                  rw [hdec, hidx0]
                  rfl
          · simp only [if_neg honeE] at hone
            exact absurd hone honeE
        · have hz : (gs.pub.bidders.eraseIdx gs.pub.currentBidIndex).length = 0 := by
            omega
          simp only [if_neg hpos2, if_pos hz, handleAuctionWin] at hone
          omega

/-- A fresh four-player game with the identity shuffle, first bidder A. -/
def freshAuctionGs : GameState := initialGameState ["A", "B", "C", "D"] (trimmedDeckFor 4) 0

/-- After A and B pass with no bid placed: bidders C and D remain. -/
def passedTwiceGs : GameState := (placeBid (placeBid freshAuctionGs "A" 0 0).1 "B" 0 0).1

/-- C3 fails on the code as stated: with no bid ever placed, C's pass leaves
exactly one bidder (D), yet the auction does not end - the stage stays
`auction`, nothing is won and no highest bidder exists. -/
theorem placeBid_sole_bidder_counterexample :
    (placeBid passedTwiceGs "C" 0 0).1.pub.bidders.length = 1 ∧
    (placeBid passedTwiceGs "C" 0 0).1.pub.stage = Stage.auction ∧
    (placeBid passedTwiceGs "C" 0 0).2.auctionWon = false ∧
    (placeBid passedTwiceGs "C" 0 0).1.pub.highestBidder = none := by
  decide

/-- After C also passes (still no bid): D is the sole bidder, auction open. -/
def passedThriceGs : GameState := (placeBid passedTwiceGs "C" 0 0).1

theorem passedThriceGs_reach : AuctionReach passedThriceGs :=
  AuctionReach.step _ _ _ _
    (AuctionReach.step _ _ _ _
      (AuctionReach.step _ _ _ _
        (AuctionReach.init _ _ _ (by decide) (by decide))))

/-- Witness for C8: all four players pass; the fallback picks
`players[2] = C` as winner with bid 125 and the auction ends. -/
theorem placeBid_all_pass_fallback_witness :
    passedThriceGs.pub.highestBidder = none ∧
    (placeBid passedThriceGs "D" 0 2).1.pub.highestBid = 125 ∧
    (placeBid passedThriceGs "D" 0 2).1.pub.highestBidder = some "C" ∧
    (placeBid passedThriceGs "D" 0 2).1.pub.stage = Stage.powerSuitSelection := by
  obtain ⟨h1, h2, h3, h4, _⟩ :=
    placeBid_all_pass_fallback passedThriceGs "D" 0 2 passedThriceGs_reach
      (by decide) (by decide)
  refine ⟨h1, h2, ?_, h4⟩
  rw [h3]
  decide

/-- A bids 130, then B and C pass: A and D remain, A holds the highest bid. -/
def raiseChainGs : GameState :=
  (placeBid (placeBid (placeBid freshAuctionGs "A" 130 0).1 "B" 0 0).1 "C" 0 0).1

theorem raiseChainGs_reach : AuctionReach raiseChainGs :=
  AuctionReach.step _ _ _ _
    (AuctionReach.step _ _ _ _
      (AuctionReach.step _ _ _ _
        (AuctionReach.init _ _ _ (by decide) (by decide))))

/-- Witness for the amended C3: D's pass leaves only A, who placed the
highest bid, so A auto-wins the auction. -/
theorem placeBid_sole_bidder_auto_win_witness :
    (placeBid raiseChainGs "D" 0 0).2.auctionWon = true ∧
    (placeBid raiseChainGs "D" 0 0).1.pub.stage = Stage.powerSuitSelection ∧
    (placeBid raiseChainGs "D" 0 0).1.pub.highestBidder = some "A" ∧
    (placeBid raiseChainGs "D" 0 0).1.pub.bidders = ["A"] := by
  obtain ⟨h1, h2, w, hw, hbid⟩ :=
    placeBid_sole_bidder_auto_win raiseChainGs "D" 0 0 raiseChainGs_reach
      (by decide) (by decide) (by decide)
  have hA : (placeBid raiseChainGs "D" 0 0).1.pub.highestBidder = some "A" := by
    decide
  refine ⟨h1, h2, hA, ?_⟩
  rw [hw] at hA
  obtain rfl : w = "A" := by
    injection hA
  exact hbid
